import Mathlib

/-!
# Verification of the litebrite-webgpu core against its specification

Shallow embedding of the core algorithms of the `litebrite-webgpu`
repository:

* the Board State Store (`src/src/hooks/useLiteBriteGPU.ts`:
  `setPixel`, `setBoard`, `clearBoard`, `getBoardState`);
* the Coordinate Resolver (`getClosestPeg` in the `LiteBrite` component);
* the Pixel Synthesizer (compute shader `src/src/shaders/litebrite.wgsl`),
  with the GPU float math modelled over the real numbers;
* the Image Quantizer classification loop
  (`src/src/utils/imageProcessing.ts`);
* the Canvas-2D fallback's pulse computation (`useLiteBriteCanvas`).

JavaScript numbers are modelled as rationals where the code only performs
exact dyadic arithmetic (the coordinate resolver), and as reals where the
code uses transcendental functions (the shader, the quantizer distance).
`Uint32Array` stores are modelled as naturals reduced mod `2^32`.
-/

namespace LiteBrite

/-! ## Board State Store (`useLiteBriteGPU.ts`, lines 395-414)

The store owns a `Uint32Array` of length `boardWidth * boardHeight`.
`cells` models the live array; a `Uint32Array` write coerces the stored
value mod `2^32`. -/

/-- One past the largest value a `Uint32Array` cell can hold. -/
def U32 : ℕ := 2 ^ 32

/-- The Board State Store: fixed dimensions plus the live grid. -/
structure Board where
  width : ℕ
  height : ℕ
  cells : List ℕ

/-- `new Uint32Array(boardWidth * boardHeight)` — zero-filled. -/
def Board.init (w h : ℕ) : Board :=
  ⟨w, h, List.replicate (w * h) 0⟩

/-- `setPixel(x, y, colorIndex)`: bounds-checked in-place store
(`if (x >= 0 && x < boardWidth && y >= 0 && y < boardHeight)
boardStateRef.current[y * boardWidth + x] = colorIndex`). -/
def Board.setPixel (b : Board) (x y : ℤ) (colorIndex : ℕ) : Board :=
  if 0 ≤ x ∧ x < (b.width : ℤ) ∧ 0 ≤ y ∧ y < (b.height : ℤ) then
    { b with cells := b.cells.set (y.toNat * b.width + x.toNat) (colorIndex % U32) }
  else b

/-- `setBoard(data)`: `if (data.length === boardStateRef.current.length)
boardStateRef.current.set(data)`. -/
def Board.setBoard (b : Board) (data : List ℕ) : Board :=
  if data.length = b.cells.length then { b with cells := data } else b

/-- `clearBoard()`: `boardStateRef.current.fill(0)`. -/
def Board.clearBoard (b : Board) : Board :=
  { b with cells := List.replicate b.cells.length 0 }

/-- `getBoardState()`: `new Uint32Array(boardStateRef.current)` — an
independent copy; as a pure value it carries the same contents. -/
def Board.getBoardState (b : Board) : List ℕ :=
  b.cells

lemma linear_index_lt {x y w h : ℕ} (hx : x < w) (hy : y < h) :
    y * w + x < w * h := by
  calc y * w + x < y * w + w := by omega
    _ = (y + 1) * w := by ring
    _ ≤ h * w := Nat.mul_le_mul_right w hy
    _ = w * h := Nat.mul_comm h w

end LiteBrite

namespace LiteBrite

/-! ## Coordinate Resolver (`getClosestPeg`, LiteBrite component)

The resolver works in canvas pixel space.  All arithmetic it performs on
its inputs is exact dyadic arithmetic on IEEE doubles, so rationals model
JavaScript numbers faithfully here.  `Math.round` rounds half toward
`+∞`, i.e. `⌊q + 1/2⌋`. -/

/-- Layout pitch of the peg grid, in pixels (`PEG_SPACING = 32`). -/
def PEG_SPACING : ℚ := 32

/-- Board width in pegs (`BOARD_WIDTH = 32`). -/
def BOARD_WIDTH : ℤ := 32

/-- Board height in pegs (`BOARD_HEIGHT = 24`). -/
def BOARD_HEIGHT : ℤ := 24

/-- JavaScript `Math.round`: round half toward positive infinity. -/
def jsRound (q : ℚ) : ℤ := ⌊q + 1 / 2⌋

/-- Accumulator of the resolver's candidate loop: the best cell so far
and its squared distance (`none` models the initial `Infinity`). -/
structure ResolverAcc where
  closest : ℤ × ℤ
  minDistSq : Option ℚ

/-- One iteration of the row loop of `getClosestPeg` for row `r`:
skip the row if out of bounds, compute the nearest column `c` by
rounding, skip if out of bounds, else keep the candidate iff its squared
distance beats the minimum so far (strictly — first minimum wins). -/
def considerRow (px py : ℚ) (r : ℤ) (acc : ResolverAcc) : ResolverAcc :=
  if r < 0 ∨ BOARD_HEIGHT ≤ r then acc
  else
    let rowOffset : ℚ := if r % 2 ≠ 0 then PEG_SPACING / 2 else 0
    let c : ℤ := jsRound ((px - rowOffset - PEG_SPACING / 2) / PEG_SPACING)
    if c < 0 ∨ BOARD_WIDTH ≤ c then acc
    else
      let centerX : ℚ := (c : ℚ) * PEG_SPACING + PEG_SPACING / 2 + rowOffset
      let centerY : ℚ := (r : ℚ) * PEG_SPACING + PEG_SPACING / 2
      let dx := px - centerX
      let dy := py - centerY
      let distSq := dx * dx + dy * dy
      match acc.minDistSq with
      | none => ⟨(c, r), some distSq⟩
      | some m => if distSq < m then ⟨(c, r), some distSq⟩ else acc

/-- `getClosestPeg(px, py)`: check rows `roughRow - 1 .. roughRow + 1`
around `roughRow = floor(py / PEG_SPACING)` and return the closest
candidate, or the sentinel `(-1, -1)` when no candidate was in bounds. -/
def getClosestPeg (px py : ℚ) : ℤ × ℤ :=
  let roughRow : ℤ := ⌊py / PEG_SPACING⌋
  (considerRow px py (roughRow + 1)
    (considerRow px py roughRow
      (considerRow px py (roughRow - 1) ⟨(-1, -1), none⟩))).closest

/-- Horizontal stagger offset of row `r` (odd rows shifted by half the
pitch), as used both by the resolver and by the shader's layout. -/
def rowOffsetQ (r : ℤ) : ℚ := if r % 2 ≠ 0 then PEG_SPACING / 2 else 0

/-- Physical x-coordinate of the center of cell `(c, r)`. -/
def physCenterX (c r : ℤ) : ℚ := (c : ℚ) * PEG_SPACING + PEG_SPACING / 2 + rowOffsetQ r

/-- Physical y-coordinate of the center of any cell in row `r`. -/
def physCenterY (r : ℤ) : ℚ := (r : ℚ) * PEG_SPACING + PEG_SPACING / 2

lemma jsRound_int_add (z : ℤ) (q : ℚ) (h0 : -(1 / 2) ≤ q) (h1 : q < 1 / 2) :
    jsRound ((z : ℚ) + q) = z := by
  unfold jsRound
  rw [Int.floor_eq_iff]
  constructor <;> linarith

lemma jsRound_int_add_up (z : ℤ) (q : ℚ) (h0 : 1 / 2 ≤ q) (h1 : q < 3 / 2) :
    jsRound ((z : ℚ) + q) = z + 1 := by
  unfold jsRound
  rw [Int.floor_eq_iff]
  push_cast
  constructor <;> linarith

lemma considerRow_skip_row (px py : ℚ) (r : ℤ) (acc : ResolverAcc)
    (h : r < 0 ∨ BOARD_HEIGHT ≤ r) :
    considerRow px py r acc = acc := by
  unfold considerRow
  rw [if_pos h]

lemma considerRow_skip_col (px py : ℚ) (r : ℤ) (acc : ResolverAcc)
    (h0 : 0 ≤ r) (h1 : r < BOARD_HEIGHT)
    (h : jsRound ((px - (if r % 2 ≠ 0 then PEG_SPACING / 2 else 0) - PEG_SPACING / 2) /
        PEG_SPACING) < 0 ∨
      BOARD_WIDTH ≤ jsRound ((px - (if r % 2 ≠ 0 then PEG_SPACING / 2 else 0) -
        PEG_SPACING / 2) / PEG_SPACING)) :
    considerRow px py r acc = acc := by
  unfold considerRow
  rw [if_neg (by omega), if_pos h]

lemma considerRow_hit (px py : ℚ) (r : ℤ) (acc : ResolverAcc)
    (h0 : 0 ≤ r) (h1 : r < BOARD_HEIGHT) (c : ℤ)
    (hc : jsRound ((px - (if r % 2 ≠ 0 then PEG_SPACING / 2 else 0) - PEG_SPACING / 2) /
      PEG_SPACING) = c)
    (hc0 : 0 ≤ c) (hc1 : c < BOARD_WIDTH) (d : ℚ)
    (hd : (px - ((c : ℚ) * PEG_SPACING + PEG_SPACING / 2 +
        (if r % 2 ≠ 0 then PEG_SPACING / 2 else 0))) *
        (px - ((c : ℚ) * PEG_SPACING + PEG_SPACING / 2 +
        (if r % 2 ≠ 0 then PEG_SPACING / 2 else 0))) +
        (py - ((r : ℚ) * PEG_SPACING + PEG_SPACING / 2)) *
        (py - ((r : ℚ) * PEG_SPACING + PEG_SPACING / 2)) = d) :
    considerRow px py r acc =
      match acc.minDistSq with
      | none => ⟨(c, r), some d⟩
      | some m => if d < m then ⟨(c, r), some d⟩ else acc := by
  unfold considerRow
  rw [if_neg (by omega)]
  simp only [hc]
  rw [if_neg (by omega)]
  simp only [hd]

lemma no_improve {dx dy m : ℚ} (hm : m ≤ dy * dy) (h : dx * dx + dy * dy < m) :
    False := by nlinarith [mul_self_nonneg dx]

lemma dy_sq_le_distSq {dx dy : ℚ} : dy * dy ≤ dx * dx + dy * dy := by
  nlinarith [mul_self_nonneg dx]

lemma considerRow_keep (px py : ℚ) (r : ℤ) (cl : ℤ × ℤ) (m : ℚ)
    (hm : m ≤ (py - ((r : ℚ) * PEG_SPACING + PEG_SPACING / 2)) *
      (py - ((r : ℚ) * PEG_SPACING + PEG_SPACING / 2))) :
    considerRow px py r ⟨cl, some m⟩ = ⟨cl, some m⟩ := by
  simp only [considerRow]
  split_ifs <;> try rfl
  all_goals exact absurd ‹_› fun h => (no_improve hm h).elim

lemma considerRow_cases (px py : ℚ) (r : ℤ) (acc : ResolverAcc) :
    considerRow px py r acc = acc ∨
    ∃ p d, considerRow px py r acc = ⟨p, some d⟩ ∧
      (py - ((r : ℚ) * PEG_SPACING + PEG_SPACING / 2)) *
        (py - ((r : ℚ) * PEG_SPACING + PEG_SPACING / 2)) ≤ d := by
  simp only [considerRow]
  split_ifs <;> try (left; rfl)
  all_goals rcases acc with ⟨cl, _ | m⟩
  all_goals simp only
  all_goals try (right; exact ⟨_, _, rfl, dy_sq_le_distSq⟩)
  all_goals split_ifs <;> first
    | (left; rfl)
    | (right; exact ⟨_, _, rfl, dy_sq_le_distSq⟩)

/-- C3: coordinate resolver round-trip — for every cell `(c, r)` of the
32×24 board, resolving that cell's own physical center
`(c*pegSpacing + pegSpacing/2 + (pegSpacing/2 if r odd else 0),
r*pegSpacing + pegSpacing/2)` returns exactly `(c, r)`. -/
theorem C3_resolver_round_trip (c r : ℤ) (hc0 : 0 ≤ c) (hc : c < 32)
    (hr0 : 0 ≤ r) (hr : r < 24) :
    getClosestPeg (physCenterX c r) (physCenterY r) = (c, r) := by
  have hrr : ⌊physCenterY r / PEG_SPACING⌋ = r := by
    have h : physCenterY r / PEG_SPACING = (r : ℚ) + 1 / 2 := by
      unfold physCenterY PEG_SPACING; ring
    rw [h, Int.floor_int_add]
    norm_num
  have hcr : jsRound ((physCenterX c r - (if r % 2 ≠ 0 then PEG_SPACING / 2 else 0) -
      PEG_SPACING / 2) / PEG_SPACING) = c := by
    have h : (physCenterX c r - (if r % 2 ≠ 0 then PEG_SPACING / 2 else 0) -
        PEG_SPACING / 2) / PEG_SPACING = (c : ℚ) + 0 := by
      unfold physCenterX rowOffsetQ PEG_SPACING; ring
    rw [h]
    exact jsRound_int_add c 0 (by norm_num) (by norm_num)
  have hdr : (physCenterX c r - ((c : ℚ) * PEG_SPACING + PEG_SPACING / 2 +
      (if r % 2 ≠ 0 then PEG_SPACING / 2 else 0))) *
      (physCenterX c r - ((c : ℚ) * PEG_SPACING + PEG_SPACING / 2 +
      (if r % 2 ≠ 0 then PEG_SPACING / 2 else 0))) +
      (physCenterY r - ((r : ℚ) * PEG_SPACING + PEG_SPACING / 2)) *
      (physCenterY r - ((r : ℚ) * PEG_SPACING + PEG_SPACING / 2)) = 0 := by
    unfold physCenterX physCenterY rowOffsetQ; ring
  have hit_r : ∀ a : ResolverAcc,
      (a.minDistSq = none ∨ ∃ m, a.minDistSq = some m ∧ 0 < m) →
      considerRow (physCenterX c r) (physCenterY r) r a = ⟨(c, r), some 0⟩ := by
    intro a ha
    rw [considerRow_hit _ _ r a hr0 (by unfold BOARD_HEIGHT; omega) c hcr hc0
      (by unfold BOARD_WIDTH; omega) 0 hdr]
    rcases ha with h | ⟨m, hm, hm0⟩
    · rw [h]
    · rw [hm]; simp [hm0]
  have hdy1 : (physCenterY r - (((r - 1 : ℤ) : ℚ) * PEG_SPACING + PEG_SPACING / 2)) *
      (physCenterY r - (((r - 1 : ℤ) : ℚ) * PEG_SPACING + PEG_SPACING / 2)) = 1024 := by
    unfold physCenterY PEG_SPACING; push_cast; ring
  have hkeep : considerRow (physCenterX c r) (physCenterY r) (r + 1) ⟨(c, r), some 0⟩
      = ⟨(c, r), some 0⟩ :=
    considerRow_keep _ _ _ _ _ (mul_self_nonneg _)
  simp only [getClosestPeg]
  rw [hrr]
  rcases considerRow_cases (physCenterX c r) (physCenterY r) (r - 1)
      ⟨(-1, -1), none⟩ with hskip | ⟨p, d, heq, hge⟩
  · rw [hskip, hit_r _ (Or.inl rfl), hkeep]
  · rw [heq, hit_r _ (Or.inr ⟨d, rfl, by rw [hdy1] at hge; linarith⟩), hkeep]

/-- Witness for C3 at the concrete cell `(0, 0)`. -/
theorem C3_resolver_round_trip_witness :
    getClosestPeg (physCenterX 0 0) (physCenterY 0) = (0, 0) :=
  C3_resolver_round_trip 0 0 (by norm_num) (by norm_num) (by norm_num) (by norm_num)

lemma getClosestPeg_midpoint_case (px py : ℚ) (r1 c1 c2 : ℤ)
    (hrr : ⌊py / PEG_SPACING⌋ = r1 + 1)
    (hr10 : 0 ≤ r1) (hr1 : r1 + 1 < 24)
    (hc10 : 0 ≤ c1) (hc1 : c1 < 32) (hc20 : 0 ≤ c2) (hc2 : c2 < 32)
    (hcA : jsRound ((px - (if r1 % 2 ≠ 0 then PEG_SPACING / 2 else 0) -
      PEG_SPACING / 2) / PEG_SPACING) = c1)
    (hdA : (px - ((c1 : ℚ) * PEG_SPACING + PEG_SPACING / 2 +
        (if r1 % 2 ≠ 0 then PEG_SPACING / 2 else 0))) *
        (px - ((c1 : ℚ) * PEG_SPACING + PEG_SPACING / 2 +
        (if r1 % 2 ≠ 0 then PEG_SPACING / 2 else 0))) +
        (py - ((r1 : ℚ) * PEG_SPACING + PEG_SPACING / 2)) *
        (py - ((r1 : ℚ) * PEG_SPACING + PEG_SPACING / 2)) = 320)
    (hcB : jsRound ((px - (if (r1 + 1) % 2 ≠ 0 then PEG_SPACING / 2 else 0) -
      PEG_SPACING / 2) / PEG_SPACING) = c2)
    (hdB : (px - ((c2 : ℚ) * PEG_SPACING + PEG_SPACING / 2 +
        (if (r1 + 1) % 2 ≠ 0 then PEG_SPACING / 2 else 0))) *
        (px - ((c2 : ℚ) * PEG_SPACING + PEG_SPACING / 2 +
        (if (r1 + 1) % 2 ≠ 0 then PEG_SPACING / 2 else 0))) +
        (py - (((r1 + 1 : ℤ) : ℚ) * PEG_SPACING + PEG_SPACING / 2)) *
        (py - (((r1 + 1 : ℤ) : ℚ) * PEG_SPACING + PEG_SPACING / 2)) = 320)
    (hdy : 320 ≤ (py - (((r1 + 1 + 1 : ℤ) : ℚ) * PEG_SPACING + PEG_SPACING / 2)) *
        (py - (((r1 + 1 + 1 : ℤ) : ℚ) * PEG_SPACING + PEG_SPACING / 2))) :
    getClosestPeg px py = (c1, r1) := by
  have h1 : considerRow px py (r1 + 1 - 1) ⟨(-1, -1), none⟩ = ⟨(c1, r1), some 320⟩ := by
    have hsub : r1 + 1 - 1 = r1 := by ring
    rw [hsub, considerRow_hit px py r1 _ hr10 (by unfold BOARD_HEIGHT; omega) c1 hcA
      hc10 (by unfold BOARD_WIDTH; omega) 320 hdA]
  have h2 : considerRow px py (r1 + 1) ⟨(c1, r1), some 320⟩ = ⟨(c1, r1), some 320⟩ := by
    rw [considerRow_hit px py (r1 + 1) _ (by omega) (by unfold BOARD_HEIGHT; omega) c2 hcB
      hc20 (by unfold BOARD_WIDTH; omega) 320 hdB]
    simp
  have h3 := considerRow_keep px py (r1 + 1 + 1) (c1, r1) 320 hdy
  simp only [getClosestPeg]
  rw [hrr, h1, h2, h3]

/-- C4 (corrected): the claim quantifies over every point equidistant from
the two centers; the code refutes that (see the counterexample), but the
intended boundary property — the spec's "point exactly halfway between
two vertically-adjacent staggered cells" — holds: resolving the midpoint
of the physical centers of cells `(c1, r1)` and `(c2, r1+1)` whose
centers are horizontally half a pitch apart returns one of the two cells
(in fact always `(c1, r1)`, deterministically) and never the sentinel
`(-1, -1)`. -/
theorem C4_midpoint_boundary (c1 r1 c2 : ℤ)
    (hc10 : 0 ≤ c1) (hc1 : c1 < 32) (hr10 : 0 ≤ r1) (hr1 : r1 + 1 < 24)
    (hc20 : 0 ≤ c2) (hc2 : c2 < 32)
    (hadj : (physCenterX c1 r1 - physCenterX c2 (r1 + 1)) *
      (physCenterX c1 r1 - physCenterX c2 (r1 + 1)) = 256) :
    (getClosestPeg ((physCenterX c1 r1 + physCenterX c2 (r1 + 1)) / 2)
        ((physCenterY r1 + physCenterY (r1 + 1)) / 2) = (c1, r1) ∨
      getClosestPeg ((physCenterX c1 r1 + physCenterX c2 (r1 + 1)) / 2)
        ((physCenterY r1 + physCenterY (r1 + 1)) / 2) = (c2, r1 + 1)) ∧
    getClosestPeg ((physCenterX c1 r1 + physCenterX c2 (r1 + 1)) / 2)
        ((physCenterY r1 + physCenterY (r1 + 1)) / 2) ≠ (-1, -1) := by
  have hmain : getClosestPeg ((physCenterX c1 r1 + physCenterX c2 (r1 + 1)) / 2)
      ((physCenterY r1 + physCenterY (r1 + 1)) / 2) = (c1, r1) := by
    have hrr : ⌊((physCenterY r1 + physCenterY (r1 + 1)) / 2) / PEG_SPACING⌋ = r1 + 1 := by
      have h : ((physCenterY r1 + physCenterY (r1 + 1)) / 2) / PEG_SPACING =
          ((r1 + 1 : ℤ) : ℚ) := by
        unfold physCenterY PEG_SPACING; push_cast; ring
      rw [h, Int.floor_intCast]
    have hdy : (320 : ℚ) ≤
        (((physCenterY r1 + physCenterY (r1 + 1)) / 2) -
          (((r1 + 1 + 1 : ℤ) : ℚ) * PEG_SPACING + PEG_SPACING / 2)) *
        (((physCenterY r1 + physCenterY (r1 + 1)) / 2) -
          (((r1 + 1 + 1 : ℤ) : ℚ) * PEG_SPACING + PEG_SPACING / 2)) := by
      have h : (((physCenterY r1 + physCenterY (r1 + 1)) / 2) -
          (((r1 + 1 + 1 : ℤ) : ℚ) * PEG_SPACING + PEG_SPACING / 2)) *
          (((physCenterY r1 + physCenterY (r1 + 1)) / 2) -
          (((r1 + 1 + 1 : ℤ) : ℚ) * PEG_SPACING + PEG_SPACING / 2)) = 2304 := by
        unfold physCenterY PEG_SPACING; push_cast; ring
      rw [h]; norm_num
    rcases Int.emod_two_eq r1 with hpar | hpar
    -- r1 even: the lower row is unshifted, the upper row is shifted by 16
    · have hE : ¬ (r1 % 2 ≠ 0) := by omega
      have hO : (r1 + 1) % 2 ≠ 0 := by omega
      have hadj' : (((c1 : ℚ) * 32 + 32 / 2 + 0) - ((c2 : ℚ) * 32 + 32 / 2 + 32 / 2)) *
          (((c1 : ℚ) * 32 + 32 / 2 + 0) - ((c2 : ℚ) * 32 + 32 / 2 + 32 / 2)) = 256 := by
        have := hadj
        unfold physCenterX rowOffsetQ PEG_SPACING at this
        rwa [if_neg hE, if_pos hO] at this
      have hd2 : ((c1 : ℚ) - c2) * (((c1 : ℚ) - c2) - 1) = 0 := by
        linear_combination hadj' / 1024
      rcases mul_eq_zero.mp hd2 with h0 | h0
      -- c2 = c1
      · have hδ : c2 = c1 := by
          have : (c1 : ℚ) = c2 := by linarith
          exact_mod_cast this.symm
        subst hδ
        refine getClosestPeg_midpoint_case _ _ r1 c2 c2 hrr hr10 hr1 hc20 hc2 hc20 hc2
          ?_ ?_ ?_ ?_ hdy
        · have h : (((physCenterX c2 r1 + physCenterX c2 (r1 + 1)) / 2) -
              (if r1 % 2 ≠ 0 then PEG_SPACING / 2 else 0) - PEG_SPACING / 2) /
              PEG_SPACING = (c2 : ℚ) + 1 / 4 := by
            unfold physCenterX rowOffsetQ PEG_SPACING
            rw [if_neg hE, if_pos hO]
            ring
          rw [h]; exact jsRound_int_add c2 (1 / 4) (by norm_num) (by norm_num)
        · unfold physCenterX physCenterY rowOffsetQ PEG_SPACING
          rw [if_neg hE, if_pos hO]
          push_cast; ring
        · have h : (((physCenterX c2 r1 + physCenterX c2 (r1 + 1)) / 2) -
              (if (r1 + 1) % 2 ≠ 0 then PEG_SPACING / 2 else 0) - PEG_SPACING / 2) /
              PEG_SPACING = (c2 : ℚ) + -(1 / 4) := by
            unfold physCenterX rowOffsetQ PEG_SPACING
            rw [if_neg hE, if_pos hO]
            ring
          rw [h]; exact jsRound_int_add c2 (-(1 / 4)) (by norm_num) (by norm_num)
        · unfold physCenterX physCenterY rowOffsetQ PEG_SPACING
          rw [if_neg hE, if_pos hO]
          push_cast; ring
      -- c2 = c1 - 1
      · have hδ : c2 = c1 - 1 := by
          have : (c1 : ℚ) - c2 - 1 = 0 := by linarith
          have h2 : (c1 : ℚ) - 1 = c2 := by linarith
          exact_mod_cast h2.symm
        subst hδ
        refine getClosestPeg_midpoint_case _ _ r1 c1 (c1 - 1) hrr hr10 hr1 hc10 hc1 hc20 hc2
          ?_ ?_ ?_ ?_ hdy
        · have h : (((physCenterX c1 r1 + physCenterX (c1 - 1) (r1 + 1)) / 2) -
              (if r1 % 2 ≠ 0 then PEG_SPACING / 2 else 0) - PEG_SPACING / 2) /
              PEG_SPACING = (c1 : ℚ) + -(1 / 4) := by
            unfold physCenterX rowOffsetQ PEG_SPACING
            rw [if_neg hE, if_pos hO]
            push_cast; ring
          rw [h]; exact jsRound_int_add c1 (-(1 / 4)) (by norm_num) (by norm_num)
        · unfold physCenterX physCenterY rowOffsetQ PEG_SPACING
          rw [if_neg hE, if_pos hO]
          push_cast; ring
        · have h : (((physCenterX c1 r1 + physCenterX (c1 - 1) (r1 + 1)) / 2) -
              (if (r1 + 1) % 2 ≠ 0 then PEG_SPACING / 2 else 0) - PEG_SPACING / 2) /
              PEG_SPACING = ((c1 - 1 : ℤ) : ℚ) + 1 / 4 := by
            unfold physCenterX rowOffsetQ PEG_SPACING
            rw [if_neg hE, if_pos hO]
            push_cast; ring
          rw [h]; exact jsRound_int_add (c1 - 1) (1 / 4) (by norm_num) (by norm_num)
        · unfold physCenterX physCenterY rowOffsetQ PEG_SPACING
          rw [if_neg hE, if_pos hO]
          push_cast; ring
    -- r1 odd: the lower row is shifted by 16, the upper row is unshifted
    · have hO : r1 % 2 ≠ 0 := by omega
      have hE : ¬ ((r1 + 1) % 2 ≠ 0) := by omega
      have hadj' : (((c1 : ℚ) * 32 + 32 / 2 + 32 / 2) - ((c2 : ℚ) * 32 + 32 / 2 + 0)) *
          (((c1 : ℚ) * 32 + 32 / 2 + 32 / 2) - ((c2 : ℚ) * 32 + 32 / 2 + 0)) = 256 := by
        have := hadj
        unfold physCenterX rowOffsetQ PEG_SPACING at this
        rwa [if_pos hO, if_neg hE] at this
      have hd2 : ((c2 : ℚ) - c1) * (((c2 : ℚ) - c1) - 1) = 0 := by
        linear_combination hadj' / 1024
      rcases mul_eq_zero.mp hd2 with h0 | h0
      -- c2 = c1
      · have hδ : c2 = c1 := by
          have : (c2 : ℚ) = c1 := by linarith
          exact_mod_cast this
        subst hδ
        refine getClosestPeg_midpoint_case _ _ r1 c2 c2 hrr hr10 hr1 hc20 hc2 hc20 hc2
          ?_ ?_ ?_ ?_ hdy
        · have h : (((physCenterX c2 r1 + physCenterX c2 (r1 + 1)) / 2) -
              (if r1 % 2 ≠ 0 then PEG_SPACING / 2 else 0) - PEG_SPACING / 2) /
              PEG_SPACING = (c2 : ℚ) + -(1 / 4) := by
            unfold physCenterX rowOffsetQ PEG_SPACING
            rw [if_pos hO, if_neg hE]
            ring
          rw [h]; exact jsRound_int_add c2 (-(1 / 4)) (by norm_num) (by norm_num)
        · unfold physCenterX physCenterY rowOffsetQ PEG_SPACING
          rw [if_pos hO, if_neg hE]
          push_cast; ring
        · have h : (((physCenterX c2 r1 + physCenterX c2 (r1 + 1)) / 2) -
              (if (r1 + 1) % 2 ≠ 0 then PEG_SPACING / 2 else 0) - PEG_SPACING / 2) /
              PEG_SPACING = (c2 : ℚ) + 1 / 4 := by
            unfold physCenterX rowOffsetQ PEG_SPACING
            rw [if_pos hO, if_neg hE]
            ring
          rw [h]; exact jsRound_int_add c2 (1 / 4) (by norm_num) (by norm_num)
        · unfold physCenterX physCenterY rowOffsetQ PEG_SPACING
          rw [if_pos hO, if_neg hE]
          push_cast; ring
      -- c2 = c1 + 1
      · have hδ : c2 = c1 + 1 := by
          have h2 : (c2 : ℚ) = c1 + 1 := by linarith
          exact_mod_cast h2
        subst hδ
        refine getClosestPeg_midpoint_case _ _ r1 c1 (c1 + 1) hrr hr10 hr1 hc10 hc1 hc20 hc2
          ?_ ?_ ?_ ?_ hdy
        · have h : (((physCenterX c1 r1 + physCenterX (c1 + 1) (r1 + 1)) / 2) -
              (if r1 % 2 ≠ 0 then PEG_SPACING / 2 else 0) - PEG_SPACING / 2) /
              PEG_SPACING = (c1 : ℚ) + 1 / 4 := by
            unfold physCenterX rowOffsetQ PEG_SPACING
            rw [if_pos hO, if_neg hE]
            push_cast; ring
          rw [h]; exact jsRound_int_add c1 (1 / 4) (by norm_num) (by norm_num)
        · unfold physCenterX physCenterY rowOffsetQ PEG_SPACING
          rw [if_pos hO, if_neg hE]
          push_cast; ring
        · have h : (((physCenterX c1 r1 + physCenterX (c1 + 1) (r1 + 1)) / 2) -
              (if (r1 + 1) % 2 ≠ 0 then PEG_SPACING / 2 else 0) - PEG_SPACING / 2) /
              PEG_SPACING = ((c1 + 1 : ℤ) : ℚ) + -(1 / 4) := by
            unfold physCenterX rowOffsetQ PEG_SPACING
            rw [if_pos hO, if_neg hE]
            push_cast; ring
          rw [h]; exact jsRound_int_add (c1 + 1) (-(1 / 4)) (by norm_num) (by norm_num)
        · unfold physCenterX physCenterY rowOffsetQ PEG_SPACING
          rw [if_pos hO, if_neg hE]
          push_cast; ring
  rw [hmain]
  refine ⟨Or.inl rfl, ?_⟩
  intro h
  have h1 := congrArg Prod.fst h
  simp only at h1
  omega

/-- Witness for C4 at cells `(0, 0)` and `(0, 1)`: the midpoint of their
centers resolves to one of the two and not to the sentinel. -/
theorem C4_midpoint_boundary_witness :
    ((getClosestPeg ((physCenterX 0 0 + physCenterX 0 (0 + 1)) / 2)
        ((physCenterY 0 + physCenterY (0 + 1)) / 2) = (0, 0) ∨
      getClosestPeg ((physCenterX 0 0 + physCenterX 0 (0 + 1)) / 2)
        ((physCenterY 0 + physCenterY (0 + 1)) / 2) = (0, 0 + 1)) ∧
    getClosestPeg ((physCenterX 0 0 + physCenterX 0 (0 + 1)) / 2)
        ((physCenterY 0 + physCenterY (0 + 1)) / 2) ≠ (-1, -1)) :=
  C4_midpoint_boundary 0 0 0 (by norm_num) (by norm_num) (by norm_num) (by norm_num)
    (by norm_num) (by norm_num)
    (by unfold physCenterX rowOffsetQ PEG_SPACING; norm_num)

/-- Counterexample for C4 as stated: the point `(64, 12)` is exactly
equidistant from the physical centers of the vertically-adjacent
staggered cells `(0, 0)` and `(0, 1)` (both in bounds), yet the resolver
returns `(2, 0)`, which is neither of the two. -/
theorem C4_equidistant_counterexample :
    ((64 : ℚ) - physCenterX 0 0) * ((64 : ℚ) - physCenterX 0 0) +
      ((12 : ℚ) - physCenterY 0) * ((12 : ℚ) - physCenterY 0) =
    ((64 : ℚ) - physCenterX 0 1) * ((64 : ℚ) - physCenterX 0 1) +
      ((12 : ℚ) - physCenterY 1) * ((12 : ℚ) - physCenterY 1) ∧
    getClosestPeg 64 12 = (2, 0) ∧
    ((2 : ℤ), (0 : ℤ)) ≠ ((0 : ℤ), (0 : ℤ)) ∧
    ((2 : ℤ), (0 : ℤ)) ≠ ((0 : ℤ), (1 : ℤ)) := by
  refine ⟨?_, ?_, by decide, by decide⟩
  · unfold physCenterX physCenterY rowOffsetQ PEG_SPACING
    norm_num
  · unfold getClosestPeg considerRow jsRound
    norm_num [PEG_SPACING, BOARD_WIDTH, BOARD_HEIGHT]

/-- C6: for every array `G` whose length differs from
`boardWidth*boardHeight`, `setBoard(G)` leaves every cell of the Board
State unchanged (it is a silent no-op raising no error), and when the
length matches, `setBoard(G)` replaces the entire grid with `G`'s
contents.  The source compares against the live array's length, which by
the store invariant equals `width*height` (hypothesis `hinv`). -/
theorem C6_setBoard_length_guard (b : Board) (data : List ℕ)
    (hinv : b.cells.length = b.width * b.height) :
    (data.length ≠ b.width * b.height → b.setBoard data = b) ∧
    (data.length = b.width * b.height → (b.setBoard data).cells = data) := by
  constructor
  · intro hne
    unfold Board.setBoard
    rw [if_neg]
    omega
  · intro heq
    unfold Board.setBoard
    rw [if_pos]
    omega

/-- Witness for C6 at a concrete board: a 2×2 board, a length-3 array is
ignored and a length-4 array replaces the grid. -/
theorem C6_setBoard_length_guard_witness :
    ((Board.init 2 2).setBoard [1, 2, 3] = Board.init 2 2) ∧
    ((Board.init 2 2).setBoard [1, 2, 3, 4]).cells = [1, 2, 3, 4] :=
  ⟨(C6_setBoard_length_guard (Board.init 2 2) [1, 2, 3] (by decide)).1 (by decide),
   (C6_setBoard_length_guard (Board.init 2 2) [1, 2, 3, 4] (by decide)).2 (by decide)⟩

/-- C7: for in-bounds `(x, y)` and a color index `k` (a `Uint32Array`
stores values below `2^32`), `setPixel` followed by `getBoardState`
(snapshot) shows cell `y*width + x` equal to `k` and every other cell
unchanged; for out-of-bounds `(x, y)` it is a silent no-op leaving the
whole store unchanged. -/
theorem C7_setPixel_frame (b : Board) (x y : ℤ) (k : ℕ)
    (hinv : b.cells.length = b.width * b.height) (hk : k < U32) :
    (0 ≤ x → x < (b.width : ℤ) → 0 ≤ y → y < (b.height : ℤ) →
      (b.setPixel x y k).getBoardState.getD (y.toNat * b.width + x.toNat) 0 = k ∧
      ∀ i, i ≠ y.toNat * b.width + x.toNat →
        (b.setPixel x y k).getBoardState.getD i 0 = b.getBoardState.getD i 0) ∧
    (¬ (0 ≤ x ∧ x < (b.width : ℤ) ∧ 0 ≤ y ∧ y < (b.height : ℤ)) →
      b.setPixel x y k = b) := by
  constructor
  · intro hx0 hxw hy0 hyh
    have hb : 0 ≤ x ∧ x < (b.width : ℤ) ∧ 0 ≤ y ∧ y < (b.height : ℤ) :=
      ⟨hx0, hxw, hy0, hyh⟩
    have hxn : x.toNat < b.width := by omega
    have hyn : y.toNat < b.height := by omega
    have hidx : y.toNat * b.width + x.toNat < b.cells.length := by
      rw [hinv]; exact linear_index_lt hxn hyn
    constructor
    · unfold Board.setPixel Board.getBoardState
      rw [if_pos hb]
      simp only
      rw [List.getD_eq_getElem?_getD, List.getElem?_set_self (by simpa using hidx)]
      simp [Nat.mod_eq_of_lt hk]
    · intro i hi
      unfold Board.setPixel Board.getBoardState
      rw [if_pos hb]
      simp only
      rw [List.getD_eq_getElem?_getD, List.getD_eq_getElem?_getD,
        List.getElem?_set_ne (by omega)]
  · intro hnb
    unfold Board.setPixel
    rw [if_neg hnb]

/-- Witness for C7 on a 2×2 board: `setPixel(1, 0, 7)` sets exactly cell
`0*2+1` and `setPixel(5, 0, 7)` is a no-op. -/
theorem C7_setPixel_frame_witness :
    (((Board.init 2 2).setPixel 1 0 7).getBoardState.getD (0 * 2 + 1) 0 = 7 ∧
      ∀ i, i ≠ 0 * 2 + 1 →
        ((Board.init 2 2).setPixel 1 0 7).getBoardState.getD i 0 =
          (Board.init 2 2).getBoardState.getD i 0) ∧
    ((Board.init 2 2).setPixel 5 0 7 = Board.init 2 2) := by
  refine ⟨?_, ?_⟩
  · have h := (C7_setPixel_frame (Board.init 2 2) 1 0 7 (by decide) (by decide)).1
      (by decide) (by decide) (by decide) (by decide)
    simpa using h
  · exact (C7_setPixel_frame (Board.init 2 2) 5 0 7 (by decide) (by decide)).2 (by decide)

/-! ## Image Quantizer (`src/src/utils/imageProcessing.ts`)

`findClosestColorIndex` and the per-pixel classification loop of
`processImageToBoard` (lines 86-100).  `Math.sqrt` forces the real
numbers; the `Infinity` initial minimum is modelled by `⊤ : WithTop ℝ`. -/

/-- The palette `COLORS` of `src/src/constants/colors.ts`, as
`(id, r, g, b)` with each hex color decoded by `hexToRgb`
(e.g. `#ff3333 = (255, 51, 51)`), in source enumeration order. -/
def COLORS : List (ℕ × ℕ × ℕ × ℕ) :=
  [(1, 255, 51, 51),    -- Red #ff3333
   (2, 255, 128, 25),   -- Orange #ff8019
   (3, 255, 255, 51),   -- Yellow #ffff33
   (4, 51, 255, 51),    -- Green #33ff33
   (5, 51, 128, 255),   -- Blue #3380ff
   (6, 255, 51, 204),   -- Pink #ff33cc
   (7, 255, 255, 255),  -- White #ffffff
   (8, 153, 51, 255),   -- Purple #9933ff
   (0, 26, 26, 26)]     -- Eraser #1a1a1a

/-- `getColorDistance`: Euclidean RGB distance. -/
noncomputable def getColorDistance (r1 g1 b1 r2 g2 b2 : ℕ) : ℝ :=
  Real.sqrt (((r1 : ℝ) - r2) ^ 2 + ((g1 : ℝ) - g2) ^ 2 + ((b1 : ℝ) - b2) ^ 2)

/-- Distance of the sampled RGB to one palette entry. -/
noncomputable def entryDist (r g b : ℕ) (c : ℕ × ℕ × ℕ × ℕ) : ℝ :=
  getColorDistance r g b c.2.1 c.2.2.1 c.2.2.2

open Classical in
/-- The body of the `COLORS.forEach` loop in `findClosestColorIndex`:
skip the eraser entry, otherwise adopt the entry iff its distance is
strictly below the minimum so far. -/
noncomputable def closestStep (r g b : ℕ) (acc : ℕ × WithTop ℝ)
    (c : ℕ × ℕ × ℕ × ℕ) : ℕ × WithTop ℝ :=
  if c.1 = 0 then acc
  else
    let d := getColorDistance r g b c.2.1 c.2.2.1 c.2.2.2
    if (d : WithTop ℝ) < acc.2 then (c.1, (d : WithTop ℝ)) else acc

/-- `findClosestColorIndex(r, g, b)`: near-black pixels map to the
eraser index 0, all others to the id of the strictly-first palette entry
at minimum distance (`closestIndex` starts at 0, `minDistance` at
`Infinity`). -/
noncomputable def findClosestColorIndex (r g b : ℕ) : ℕ :=
  if r < 30 ∧ g < 30 ∧ b < 30 then 0
  else (COLORS.foldl (closestStep r g b) (0, (⊤ : WithTop ℝ))).1

/-- One pixel of the classification loop of `processImageToBoard`:
`if (a < 128) result[i] = 0 else result[i] = findClosestColorIndex(r,g,b)`. -/
noncomputable def classifyPixel (r g b a : ℕ) : ℕ :=
  if a < 128 then 0 else findClosestColorIndex r g b

/-- The classification loop over the whole sampled RGBA pixel buffer. -/
noncomputable def classifyPixels (pixels : List (ℕ × ℕ × ℕ × ℕ)) : List ℕ :=
  pixels.map fun p => classifyPixel p.1 p.2.1 p.2.2.1 p.2.2.2

/-- First-minimum characterization of the `forEach` fold: from any
accumulator it either keeps the accumulator (no non-eraser entry beats
the running minimum) or returns the first non-eraser entry whose
distance is minimal over the whole list and strictly below every
earlier non-eraser entry's distance. -/
lemma foldl_closest_char (r g b : ℕ) (L : List (ℕ × ℕ × ℕ × ℕ)) :
    ∀ (i₀ : ℕ) (m₀ : WithTop ℝ),
    (L.foldl (closestStep r g b) (i₀, m₀) = (i₀, m₀) ∧
      ∀ c ∈ L, c.1 ≠ 0 → m₀ ≤ ((entryDist r g b c : ℝ) : WithTop ℝ)) ∨
    (∃ pre e suf, L = pre ++ e :: suf ∧ e.1 ≠ 0 ∧
      L.foldl (closestStep r g b) (i₀, m₀) =
        (e.1, ((entryDist r g b e : ℝ) : WithTop ℝ)) ∧
      ((entryDist r g b e : ℝ) : WithTop ℝ) < m₀ ∧
      (∀ c ∈ L, c.1 ≠ 0 → entryDist r g b e ≤ entryDist r g b c) ∧
      (∀ c ∈ pre, c.1 ≠ 0 → entryDist r g b e < entryDist r g b c)) := by
  induction L with
  | nil =>
    intro i₀ m₀
    left
    exact ⟨rfl, by simp⟩
  | cons c t ih =>
    intro i₀ m₀
    have hd : getColorDistance r g b c.2.1 c.2.2.1 c.2.2.2 = entryDist r g b c := rfl
    by_cases hc0 : c.1 = 0
    · have hstep : closestStep r g b (i₀, m₀) c = (i₀, m₀) := by
        simp only [closestStep]
        rw [if_pos hc0]
      rw [List.foldl_cons, hstep]
      rcases ih i₀ m₀ with ⟨heq, hall⟩ | ⟨pre, e, suf, hsplit, hne, hres, hlt, hmin, hfirst⟩
      · left
        refine ⟨heq, ?_⟩
        intro d hd hdne
        rcases List.mem_cons.mp hd with h | h
        · exact absurd (h ▸ hdne) (by simp [hc0])
        · exact hall d h hdne
      · right
        refine ⟨c :: pre, e, suf, by rw [hsplit]; rfl, hne, hres, hlt, ?_, ?_⟩
        · intro d hd hdne
          rcases List.mem_cons.mp hd with h | h
          · exact absurd (h ▸ hdne) (by simp [hc0])
          · exact hmin d (hsplit ▸ h) hdne
        · intro d hd hdne
          rcases List.mem_cons.mp hd with h | h
          · exact absurd (h ▸ hdne) (by simp [hc0])
          · exact hfirst d h hdne
    · by_cases hbeat : ((entryDist r g b c : ℝ) : WithTop ℝ) < m₀
      · have hstep : closestStep r g b (i₀, m₀) c =
            (c.1, ((entryDist r g b c : ℝ) : WithTop ℝ)) := by
          simp only [closestStep]
          rw [if_neg hc0, hd, if_pos hbeat]
        rw [List.foldl_cons, hstep]
        rcases ih c.1 ((entryDist r g b c : ℝ) : WithTop ℝ) with
          ⟨heq, hall⟩ | ⟨pre, e, suf, hsplit, hne, hres, hlt, hmin, hfirst⟩
        · right
          refine ⟨[], c, t, rfl, hc0, heq, hbeat, ?_, by simp⟩
          intro d hd hdne
          rcases List.mem_cons.mp hd with h | h
          · exact h ▸ le_refl _
          · exact WithTop.coe_le_coe.mp (hall d h hdne)
        · right
          refine ⟨c :: pre, e, suf, by rw [hsplit]; rfl, hne, hres,
            lt_trans hlt hbeat, ?_, ?_⟩
          · intro d hd hdne
            rcases List.mem_cons.mp hd with h | h
            · exact h ▸ le_of_lt (WithTop.coe_lt_coe.mp hlt)
            · exact hmin d (hsplit ▸ h) hdne
          · intro d hd hdne
            rcases List.mem_cons.mp hd with h | h
            · exact h ▸ WithTop.coe_lt_coe.mp hlt
            · exact hfirst d h hdne
      · have hstep : closestStep r g b (i₀, m₀) c = (i₀, m₀) := by
          simp only [closestStep]
          rw [if_neg hc0, hd, if_neg hbeat]
        rw [List.foldl_cons, hstep]
        rcases ih i₀ m₀ with ⟨heq, hall⟩ | ⟨pre, e, suf, hsplit, hne, hres, hlt, hmin, hfirst⟩
        · left
          refine ⟨heq, ?_⟩
          intro d hd hdne
          rcases List.mem_cons.mp hd with h | h
          · exact h ▸ not_lt.mp hbeat
          · exact hall d h hdne
        · right
          refine ⟨c :: pre, e, suf, by rw [hsplit]; rfl, hne, hres, hlt, ?_, ?_⟩
          · intro d hd hdne
            rcases List.mem_cons.mp hd with h | h
            · refine h ▸ le_of_lt (WithTop.coe_lt_coe.mp (lt_of_lt_of_le hlt ?_))
              exact not_lt.mp hbeat
            · exact hmin d (hsplit ▸ h) hdne
          · intro d hd hdne
            rcases List.mem_cons.mp hd with h | h
            · exact h ▸ WithTop.coe_lt_coe.mp (lt_of_lt_of_le hlt (not_lt.mp hbeat))
            · exact hfirst d h hdne

/-- C8 (corrected): classification of the image quantizer.  The claim as
frozen omits the transparency gate (`a < 128 → index 0`, see the
counterexample and C10); with alpha at least 128 it holds: (a) a pixel
with all RGB channels below 30 is assigned 0; (b) any other
sufficiently-opaque pixel is assigned the id of the first non-eraser
palette entry at minimum Euclidean RGB distance (ties broken by
enumeration order — first minimum wins); consequently (c) an all-black
opaque buffer classifies to an all-zero board and (d) a buffer solid in
one non-eraser palette entry's hex color classifies to that entry's id
everywhere. -/
theorem C8_quantizer_classification :
    (∀ r g b a : ℕ, r < 30 → g < 30 → b < 30 → classifyPixel r g b a = 0) ∧
    (∀ r g b a : ℕ, 128 ≤ a → ¬ (r < 30 ∧ g < 30 ∧ b < 30) →
      ∃ pre e suf, COLORS = pre ++ e :: suf ∧ e.1 ≠ 0 ∧
        classifyPixel r g b a = e.1 ∧
        (∀ c ∈ COLORS, c.1 ≠ 0 → entryDist r g b e ≤ entryDist r g b c) ∧
        (∀ c ∈ pre, c.1 ≠ 0 → entryDist r g b e < entryDist r g b c)) ∧
    (∀ n, classifyPixels (List.replicate n (0, 0, 0, 255)) = List.replicate n 0) ∧
    (∀ e ∈ COLORS, e.1 ≠ 0 → ∀ n,
      classifyPixels (List.replicate n (e.2.1, e.2.2.1, e.2.2.2, 255)) =
        List.replicate n e.1) := by
  refine ⟨?_, ?_, ?_, ?_⟩
  · intro r g b a hr hg hb
    unfold classifyPixel findClosestColorIndex
    split_ifs with h1 h2
    · rfl
    · rfl
    · exact absurd ⟨hr, hg, hb⟩ h2
  · intro r g b a ha hdark
    have hcl : classifyPixel r g b a =
        (COLORS.foldl (closestStep r g b) (0, (⊤ : WithTop ℝ))).1 := by
      unfold classifyPixel findClosestColorIndex
      rw [if_neg (by omega), if_neg hdark]
    rcases foldl_closest_char r g b COLORS 0 ⊤ with
      ⟨heq, hall⟩ | ⟨pre, e, suf, hsplit, hne, hres, _, hmin, hfirst⟩
    · exact absurd (hall (1, 255, 51, 51) (by decide) (by decide))
        (WithTop.not_top_le_coe _)
    · exact ⟨pre, e, suf, hsplit, hne, by rw [hcl, hres], hmin, hfirst⟩
  · intro n
    unfold classifyPixels
    rw [List.map_replicate]
    have h : classifyPixel 0 0 0 255 = 0 := by
      unfold classifyPixel findClosestColorIndex
      rw [if_neg (by omega), if_pos ⟨by omega, by omega, by omega⟩]
    rw [h]
  · intro e he hne n
    unfold classifyPixels
    rw [List.map_replicate]
    have hdarkfact : ∀ c ∈ COLORS, c.1 ≠ 0 →
        ¬ (c.2.1 < 30 ∧ c.2.2.1 < 30 ∧ c.2.2.2 < 30) := by decide
    have h : classifyPixel e.2.1 e.2.2.1 e.2.2.2 255 = e.1 := by
      unfold classifyPixel findClosestColorIndex
      rw [if_neg (by omega), if_neg (hdarkfact e he hne)]
      rcases foldl_closest_char e.2.1 e.2.2.1 e.2.2.2 COLORS 0 ⊤ with
        ⟨heq, hall⟩ | ⟨pre, e', suf, hsplit, hne', hres, _, hmin, _⟩
      · exact absurd (hall e he hne) (WithTop.not_top_le_coe _)
      · rw [hres]
        have h0 : entryDist e.2.1 e.2.2.1 e.2.2.2 e = 0 := by
          unfold entryDist getColorDistance
          simp [sub_self]
        have hle := hmin e he hne
        rw [h0] at hle
        have he'0 : entryDist e.2.1 e.2.2.1 e.2.2.2 e' = 0 :=
          le_antisymm hle (Real.sqrt_nonneg _)
        have hsum : ((e.2.1 : ℝ) - e'.2.1) ^ 2 + ((e.2.2.1 : ℝ) - e'.2.2.1) ^ 2 +
            ((e.2.2.2 : ℝ) - e'.2.2.2) ^ 2 = 0 := by
          have h2 := he'0
          unfold entryDist getColorDistance at h2
          exact (Real.sqrt_eq_zero (by positivity)).mp h2
        have hr : e'.2.1 = e.2.1 := by
          have h1 : ((e.2.1 : ℝ) - e'.2.1) ^ 2 = 0 := by
            nlinarith [sq_nonneg ((e.2.2.1 : ℝ) - e'.2.2.1),
              sq_nonneg ((e.2.2.2 : ℝ) - e'.2.2.2), sq_nonneg ((e.2.1 : ℝ) - e'.2.1)]
          have h2 : (e.2.1 : ℝ) = e'.2.1 :=
            sub_eq_zero.mp (pow_eq_zero_iff (by norm_num) |>.mp h1)
          exact_mod_cast h2.symm
        have hg : e'.2.2.1 = e.2.2.1 := by
          have h1 : ((e.2.2.1 : ℝ) - e'.2.2.1) ^ 2 = 0 := by
            nlinarith [sq_nonneg ((e.2.1 : ℝ) - e'.2.1),
              sq_nonneg ((e.2.2.2 : ℝ) - e'.2.2.2), sq_nonneg ((e.2.2.1 : ℝ) - e'.2.2.1)]
          have h2 : (e.2.2.1 : ℝ) = e'.2.2.1 :=
            sub_eq_zero.mp (pow_eq_zero_iff (by norm_num) |>.mp h1)
          exact_mod_cast h2.symm
        have hb : e'.2.2.2 = e.2.2.2 := by
          have h1 : ((e.2.2.2 : ℝ) - e'.2.2.2) ^ 2 = 0 := by
            nlinarith [sq_nonneg ((e.2.1 : ℝ) - e'.2.1),
              sq_nonneg ((e.2.2.1 : ℝ) - e'.2.2.1), sq_nonneg ((e.2.2.2 : ℝ) - e'.2.2.2)]
          have h2 : (e.2.2.2 : ℝ) = e'.2.2.2 :=
            sub_eq_zero.mp (pow_eq_zero_iff (by norm_num) |>.mp h1)
          exact_mod_cast h2.symm
        have hmem' : e' ∈ COLORS := by
          rw [hsplit]
          exact List.mem_append.mpr (Or.inr (List.mem_cons_self _ _))
        have hinj : ∀ c1 ∈ COLORS, ∀ c2 ∈ COLORS, c1.1 ≠ 0 → c2.1 ≠ 0 →
            c1.2.1 = c2.2.1 → c1.2.2.1 = c2.2.2.1 → c1.2.2.2 = c2.2.2.2 →
            c1 = c2 := by decide
        rw [hinj e' hmem' e he hne' hne hr hg hb]
    rw [h]

/-- Witness for C8: the dark rule at `(0,0,0,200)`, the nearest-entry
rule at opaque white, the all-black buffer, and a buffer solid in
`#ff3333` (palette id 1). -/
theorem C8_quantizer_classification_witness :
    classifyPixel 0 0 0 200 = 0 ∧
    (∃ pre e suf, COLORS = pre ++ e :: suf ∧ e.1 ≠ 0 ∧
      classifyPixel 255 255 255 255 = e.1 ∧
      (∀ c ∈ COLORS, c.1 ≠ 0 → entryDist 255 255 255 e ≤ entryDist 255 255 255 c) ∧
      (∀ c ∈ pre, c.1 ≠ 0 → entryDist 255 255 255 e < entryDist 255 255 255 c)) ∧
    classifyPixels (List.replicate 2 (0, 0, 0, 255)) = List.replicate 2 0 ∧
    classifyPixels (List.replicate 2 (255, 51, 51, 255)) = List.replicate 2 1 :=
  ⟨C8_quantizer_classification.1 0 0 0 200 (by norm_num) (by norm_num) (by norm_num),
   C8_quantizer_classification.2.1 255 255 255 255 (by norm_num) (by norm_num),
   C8_quantizer_classification.2.2.1 2,
   C8_quantizer_classification.2.2.2 (1, 255, 51, 51) (by decide) (by decide) 2⟩

/-- Counterexample for C8 as stated: the sampled pixel
`(r,g,b,a) = (255,0,0,0)` is not near-black, yet the classification loop
assigns it index 0 because its alpha is below 128, whereas the
minimum-distance non-eraser palette entry for `(255,0,0)` is id 1 —
so "every other sampled pixel is assigned the index of the minimum
distance non-zero entry" fails. -/
theorem C8_transparent_counterexample :
    classifyPixel 255 0 0 0 = 0 ∧ ¬ ((255 : ℕ) < 30 ∧ (0 : ℕ) < 30 ∧ (0 : ℕ) < 30) ∧
    findClosestColorIndex 255 0 0 = 1 ∧ (0 : ℕ) ≠ 1 := by
  refine ⟨by unfold classifyPixel; rw [if_pos (by omega)], by norm_num, ?_, by norm_num⟩
  unfold findClosestColorIndex
  rw [if_neg (by norm_num)]
  rcases foldl_closest_char 255 0 0 COLORS 0 ⊤ with
    ⟨heq, hall⟩ | ⟨pre, e', suf, hsplit, hne', hres, _, hmin, _⟩
  · exact absurd (hall (1, 255, 51, 51) (by decide) (by decide))
      (WithTop.not_top_le_coe _)
  · rw [hres]
    have hmem' : e' ∈ COLORS := by
      rw [hsplit]
      exact List.mem_append.mpr (Or.inr (List.mem_cons_self _ _))
    have hcon := hmin (1, 255, 51, 51) (by decide) (by decide)
    fin_cases hmem'
    · rfl
    all_goals (exfalso; revert hcon; simp only [entryDist, getColorDistance]; norm_num)

/-- C10: in the image quantizer, every sampled pixel whose alpha channel
is below 128 is assigned color index 0, regardless of its RGB values —
neither the darkness threshold nor the nearest-palette search is
consulted. -/
theorem C10_transparent_pixels_empty (r g b a : ℕ) (ha : a < 128) :
    classifyPixel r g b a = 0 := by
  unfold classifyPixel
  rw [if_pos ha]

/-- Witness for C10 at the concrete bright transparent pixel
`(200, 200, 200, 0)`. -/
theorem C10_transparent_pixels_empty_witness :
    classifyPixel 200 200 200 0 = 0 :=
  C10_transparent_pixels_empty 200 200 200 0 (by norm_num)

/-! ## Pixel Synthesizer (`src/src/shaders/litebrite.wgsl`)

The staggered-grid compute shader, embedded over the reals (GPU `f32`
intrinsics `sin`, `sqrt`, `pow`, … modelled by their real counterparts).
One per-pixel invocation of `main` is `shaderPixel`; the full dispatch
writing `outputPixels[y*width+x]` is `synthImage`.

One structural note: in `litebrite.wgsl` the guard line of the solid-peg
branch was dropped in an edit marked "PLASTIC 3D RENDERING LOGIC
(UNCHANGED)", leaving the file's braces unbalanced; the guard
`i == 0 && j == 0 && distToNeighbor <= pegRadius` is restored here from
the variant shader the comment refers to (`src/unnamed/part_003`,
line 102), which both C2 and C5 also cite. -/

/-- A WGSL `vec3<f32>` value. -/
structure Vec3 where
  x : ℝ
  y : ℝ
  z : ℝ

noncomputable def v3add (a b : Vec3) : Vec3 := ⟨a.x + b.x, a.y + b.y, a.z + b.z⟩

noncomputable def v3sub (a b : Vec3) : Vec3 := ⟨a.x - b.x, a.y - b.y, a.z - b.z⟩

noncomputable def v3smul (s : ℝ) (a : Vec3) : Vec3 := ⟨s * a.x, s * a.y, s * a.z⟩

noncomputable def v3neg (a : Vec3) : Vec3 := ⟨-a.x, -a.y, -a.z⟩

noncomputable def v3dot (a b : Vec3) : ℝ := a.x * b.x + a.y * b.y + a.z * b.z

/-- WGSL `normalize(v) = v / length(v)`. -/
noncomputable def v3normalize (a : Vec3) : Vec3 :=
  v3smul (1 / Real.sqrt (v3dot a a)) a

/-- WGSL `reflect(i, n) = i - 2 * dot(n, i) * n`. -/
noncomputable def reflectV (i n : Vec3) : Vec3 :=
  v3sub i (v3smul (2 * v3dot n i) n)

/-- WGSL componentwise `mix` on a `vec3`. -/
noncomputable def v3mix (a b : Vec3) (t : ℝ) : Vec3 :=
  ⟨a.x + (b.x - a.x) * t, a.y + (b.y - a.y) * t, a.z + (b.z - a.z) * t⟩

/-- WGSL scalar `clamp(x, lo, hi) = min(max(x, lo), hi)`. -/
noncomputable def clampR (x lo hi : ℝ) : ℝ := min (max x lo) hi

/-- WGSL `fract(x) = x - floor(x)`. -/
noncomputable def fractR (x : ℝ) : ℝ := x - ⌊x⌋

/-- WGSL `smoothstep(e0, e1, x)`: Hermite interpolation of the clamped
normalized position. -/
noncomputable def smoothstepR (e0 e1 x : ℝ) : ℝ :=
  let t := clampR ((x - e0) / (e1 - e0)) 0 1
  t * t * (3 - 2 * t)

/-- The shader's `Params` uniform struct. -/
structure Params where
  width : ℕ
  height : ℕ
  time : ℝ
  glowIntensity : ℝ

/-- `let pegSpacing = 32u`. -/
def pegSpacing : ℕ := 32

/-- `let pegRadius = 12.0`. -/
noncomputable def pegRadius : ℝ := 12

/-- `let glowRadius = 24.0`. -/
noncomputable def glowRadius : ℝ := 24

/-- `let ambientRadius = 45.0`. -/
noncomputable def ambientRadius : ℝ := 45

/-- The shader's `getColor` switch: `(rgb, alpha)` per color index. -/
noncomputable def getColor (colorIndex : ℕ) : Vec3 × ℝ :=
  match colorIndex with
  | 1 => (⟨1, 0, 0⟩, 1)        -- Red
  | 2 => (⟨1, 0.5, 0.1⟩, 1)    -- Orange
  | 3 => (⟨1, 1, 0⟩, 1)        -- Yellow
  | 4 => (⟨0.2, 1, 0.2⟩, 1)    -- Green
  | 5 => (⟨0, 1, 1⟩, 1)        -- Cyan
  | 6 => (⟨0.2, 0.8, 1⟩, 1)    -- Light Blue
  | 7 => (⟨0.2, 0.5, 1⟩, 1)    -- Blue
  | 8 => (⟨0.6, 0.2, 1⟩, 1)    -- Purple
  | 9 => (⟨1, 0.2, 0.8⟩, 1)    -- Pink
  | 10 => (⟨1, 1, 1⟩, 1)       -- White
  | _ => (⟨0, 0, 0⟩, 0)        -- Empty

/-- The shader's hash `rand(co) = fract(sin(dot(co, (12.9898, 78.233)))
* 43758.5453)` — a pure function of the pixel coordinate, no state. -/
noncomputable def rand (x y : ℝ) : ℝ :=
  fractR (Real.sin (x * 12.9898 + y * 78.233) * 43758.5453)

/-- `u32(clamp(c, 0.0, 1.0) * 255.0)`: clamp to `[0,1]`, scale by 255,
truncate toward zero (the value is nonnegative, so `Int.floor`). -/
noncomputable def toByte (c : ℝ) : ℕ := (⌊clampR c 0 1 * 255⌋).toNat

/-- `packColor`: `(a << 24u) | (r << 16u) | (g << 8u) | b` — blue in the
lowest byte (BGRA in little-endian memory, matching the `bgra8unorm`
canvas format the hook configures). -/
noncomputable def packColor (r g b a : ℝ) : ℕ :=
  ((toByte a) <<< 24) ||| ((toByte r) <<< 16) ||| ((toByte g) <<< 8) ||| (toByte b)

/-- `pulseAmount = sin(params.time * 2.0 + f32(pegIndex) * 0.1) * 0.05 + 0.95`. -/
noncomputable def pulseAmount (p : Params) (pegIndex : ℕ) : ℝ :=
  Real.sin (p.time * 2 + (pegIndex : ℝ) * 0.1) * 0.05 + 0.95

/-- `currentGlowIntensity = params.glowIntensity * pulseAmount`. -/
noncomputable def currentGlowIntensity (p : Params) (pegIndex : ℕ) : ℝ :=
  p.glowIntensity * pulseAmount p pegIndex

/-- `boardWidth = params.width / pegSpacing` (`u32` division). -/
def boardWidthOf (p : Params) : ℕ := p.width / pegSpacing

/-- `boardHeight = params.height / pegSpacing`. -/
def boardHeightOf (p : Params) : ℕ := p.height / pegSpacing

/-- Stagger shift of the pixel's own row:
`select(0.0, f32(pegSpacing) * 0.5, (y / pegSpacing) % 2u != 0u)`. -/
noncomputable def currentShift (y : ℕ) : ℝ :=
  if (y / pegSpacing) % 2 ≠ 0 then 16 else 0

/-- The background texture and hole of pixel `(x, y)` (rgb, alpha):
dark base fill plus hashed grain, darkened concentrically near the
staggered cell center. -/
noncomputable def backgroundColor (x y : ℕ) : Vec3 × ℝ :=
  let adjustedX : ℝ := (x : ℝ) - currentShift y
  let cellX : ℝ := adjustedX - (⌊adjustedX / (pegSpacing : ℝ)⌋ : ℝ) * (pegSpacing : ℝ)
  let cellY : ℝ := ((y % pegSpacing : ℕ) : ℝ)
  let distFromCenter := Real.sqrt ((cellX - 16) ^ 2 + (cellY - 16) ^ 2)
  let noise := rand x y * 0.03
  let base : Vec3 × ℝ := (⟨0.05 + noise, 0.05 + noise, 0.05 + noise⟩, 1 + 0)
  if distFromCenter ≤ pegRadius * 0.8 then
    (v3mix base.1 ⟨0, 0, 0⟩ 0.8, base.2 + (1 - base.2) * 0.8)
  else if distFromCenter ≤ pegRadius then
    (v3mix base.1 ⟨0.1, 0.1, 0.1⟩ 0.5, base.2 + (1 - base.2) * 0.5)
  else base

/-- Light contributed to pixel `(x, y)` by the occupied neighbor cell
`(npx, npy)` holding `colorIndex`, where `(i, j)` is the loop offset:
the lit-sphere plastic body when this is the pixel's own cell and the
pixel lies within `pegRadius`, otherwise the short-range glow plus
long-range ambient bleed with their distance guards. -/
noncomputable def pegLight (p : Params) (x y : ℕ) (i j : ℤ) (npx npy : ℕ)
    (colorIndex : ℕ) : Vec3 :=
  if colorIndex > 0 then
    let pegColor := (getColor colorIndex).1
    let neighborCenterX : ℝ :=
      ((npx * pegSpacing : ℕ) : ℝ) + 16 + (if npy % 2 ≠ 0 then 16 else 0)
    let neighborCenterY : ℝ := ((npy * pegSpacing : ℕ) : ℝ) + 16
    let distToNeighbor :=
      Real.sqrt (((x : ℝ) - neighborCenterX) ^ 2 + ((y : ℝ) - neighborCenterY) ^ 2)
    let cgi := currentGlowIntensity p (npy * boardWidthOf p + npx)
    if i = 0 ∧ j = 0 ∧ distToNeighbor ≤ pegRadius then
      let relX := (x : ℝ) - neighborCenterX
      let relY := (y : ℝ) - neighborCenterY
      let z := Real.sqrt (max 0 (pegRadius * pegRadius - (relX * relX + relY * relY)))
      let normal := v3normalize ⟨relX, relY, z⟩
      let lightDir := v3normalize ⟨-0.5, -0.8, 1⟩
      let viewDir : Vec3 := ⟨0, 0, 1⟩
      let centerDist := Real.sqrt ((0 - relX) ^ 2 + (0 - relY) ^ 2)
      let innerGlow := smoothstepR pegRadius 0 centerDist
      let coreColor := v3mix pegColor ⟨1, 1, 1⟩ (innerGlow * 0.6)
      let reflectDir := reflectV (v3neg lightDir) normal
      let specAngle := max (v3dot viewDir reflectDir) 0
      let spec := specAngle ^ (64 : ℕ)
      let fresnel := (1 - max (v3dot normal viewDir) 0) ^ (3 : ℕ)
      let solid1 := v3smul (0.4 + 0.6 * cgi) coreColor
      let solid2 := v3add solid1 (v3smul (spec * 0.9) ⟨1, 1, 1⟩)
      v3add solid2 (v3smul (fresnel * 0.8 * cgi) pegColor)
    else
      let glow : Vec3 :=
        if distToNeighbor ≤ glowRadius ∧ distToNeighbor > pegRadius then
          let t := (distToNeighbor - pegRadius) / (glowRadius - pegRadius)
          v3smul ((1 - t) ^ (2 : ℕ) * 0.6 * cgi) pegColor
        else ⟨0, 0, 0⟩
      let amb : Vec3 :=
        if distToNeighbor ≤ ambientRadius then
          v3smul (smoothstepR ambientRadius pegRadius distToNeighbor * 0.15 * cgi) pegColor
        else ⟨0, 0, 0⟩
      v3add glow amb
  else ⟨0, 0, 0⟩

/-- One iteration of the shader's 3×3 neighbor loop at offset
`ij = (i, j)`: bounds-check the logical neighbor of the pixel's cell,
read its color index from the board buffer, and take its light. -/
noncomputable def neighborContrib (board : List ℕ) (p : Params) (x y : ℕ)
    (ij : ℤ × ℤ) : Vec3 :=
  let currentPegX : ℤ := ⌊((x : ℝ) - currentShift y) / (pegSpacing : ℝ)⌋
  let currentPegY : ℤ := ((y / pegSpacing : ℕ) : ℤ)
  let npx := currentPegX + ij.1
  let npy := currentPegY + ij.2
  if 0 ≤ npx ∧ npx < (boardWidthOf p : ℤ) ∧ 0 ≤ npy ∧ npy < (boardHeightOf p : ℤ) then
    pegLight p x y ij.1 ij.2 npx.toNat npy.toNat
      (board.getD (npy.toNat * boardWidthOf p + npx.toNat) 0)
  else ⟨0, 0, 0⟩

/-- The loop order of `for i` (outer) and `for j` (inner). -/
def neighborOffsets : List (ℤ × ℤ) :=
  [(-1, -1), (-1, 0), (-1, 1), (0, -1), (0, 0), (0, 1), (1, -1), (1, 0), (1, 1)]

/-- `accumulatedLight` after the full 3×3 loop. -/
noncomputable def accumulatedLight (board : List ℕ) (p : Params) (x y : ℕ) : Vec3 :=
  neighborOffsets.foldl (fun acc ij => v3add acc (neighborContrib board p x y ij)) ⟨0, 0, 0⟩

/-- One invocation of `main` for pixel `(x, y)`:
`packColor(clamp(vec4(background.rgb + accumulatedLight, 1.0), 0, 1))`. -/
noncomputable def shaderPixel (board : List ℕ) (p : Params) (x y : ℕ) : ℕ :=
  let bg := backgroundColor x y
  let acc := accumulatedLight board p x y
  packColor (clampR (bg.1.x + acc.x) 0 1) (clampR (bg.1.y + acc.y) 0 1)
    (clampR (bg.1.z + acc.z) 0 1) (clampR 1 0 1)

/-- The full dispatch: the Output Image buffer, pixel `(x, y)` written at
`pixelIndex = y * params.width + x`. -/
noncomputable def synthImage (board : List ℕ) (p : Params) : List ℕ :=
  (List.range (p.width * p.height)).map fun idx =>
    shaderPixel board p (idx % p.width) (idx / p.width)

/-! ### Canvas-2D fallback pulse (`useLiteBriteCanvas`) -/

/-- The fallback renderer's pulse:
`Math.sin(time * 2 + (y * boardWidth + x) * 0.1) * 0.1 + 0.9`. -/
noncomputable def canvasPulseAmount (time : ℝ) (idx : ℕ) : ℝ :=
  Real.sin (time * 2 + (idx : ℝ) * 0.1) * 0.1 + 0.9

/-- The fallback renderer's intensity:
`glowIntensity * pulseAmount * pegBrightness`. -/
noncomputable def canvasPegIntensity (glowIntensity pegBrightness time : ℝ)
    (idx : ℕ) : ℝ :=
  glowIntensity * canvasPulseAmount time idx * pegBrightness

/-! ### Byte-layout lemmas for `packColor` -/

lemma shiftLeft_lor_eq_add {a b : ℕ} (k : ℕ) (hb : b < 2 ^ k) :
    a <<< k ||| b = a * 2 ^ k + b := by
  apply Nat.eq_of_testBit_eq
  intro j
  rw [Nat.testBit_lor, Nat.testBit_shiftLeft,
    show a * 2 ^ k + b = 2 ^ k * a + b by ring,
    Nat.testBit_mul_pow_two_add a hb j]
  rcases lt_or_ge j k with h | h
  · simp [h, Nat.not_le.mpr h]
  · have hbj : b.testBit j = false :=
      Nat.testBit_eq_false_of_lt
        (lt_of_lt_of_le hb (Nat.pow_le_pow_right (by norm_num) h))
    simp [h, Nat.not_lt.mpr h, hbj]

lemma toByte_le (c : ℝ) : toByte c ≤ 255 := by
  unfold toByte clampR
  have hle : min (max c 0) 1 * 255 ≤ 255 := by
    have h := min_le_right (max c 0) 1
    nlinarith
  have h1 : ⌊min (max c 0) 1 * 255⌋ ≤ 255 := by
    calc ⌊min (max c 0) 1 * 255⌋ ≤ ⌊(255 : ℝ)⌋ := Int.floor_le_floor hle
      _ = 255 := by norm_num
  exact Int.toNat_le.mpr h1

lemma toByte_one : toByte 1 = 255 := by
  unfold toByte clampR
  norm_num
  decide

lemma toByte_zero : toByte 0 = 0 := by
  unfold toByte clampR
  norm_num

lemma toByte_clamp (c : ℝ) : toByte (clampR c 0 1) = toByte c := by
  unfold toByte clampR
  have h1 : max (min (max c 0) 1) 0 = min (max c 0) 1 :=
    max_eq_left (le_min (le_max_right c 0) zero_le_one)
  have h2 : min (min (max c 0) 1) 1 = min (max c 0) 1 :=
    min_eq_left (min_le_right _ 1)
  rw [h1, h2]

/-- `packColor` as a sum of byte fields. -/
lemma packColor_eq (r g b a : ℝ) :
    packColor r g b a =
      toByte a * 2 ^ 24 + toByte r * 2 ^ 16 + toByte g * 2 ^ 8 + toByte b := by
  unfold packColor
  have hB : toByte b < 2 ^ 8 := lt_of_le_of_lt (toByte_le b) (by norm_num)
  have hGB : toByte g * 2 ^ 8 + toByte b < 2 ^ 16 := by
    have := toByte_le g
    omega
  have hRGB : toByte r * 2 ^ 16 + (toByte g * 2 ^ 8 + toByte b) < 2 ^ 24 := by
    have := toByte_le r
    omega
  rw [Nat.lor_assoc, shiftLeft_lor_eq_add 8 hB, Nat.lor_assoc,
    shiftLeft_lor_eq_add 16 hGB, shiftLeft_lor_eq_add 24 hRGB]
  ring

/-- C1 (corrected): every pixel of the Output Image is 4 bytes, each
channel clamped to `[0,1]`, scaled by 255 and truncated; the alpha byte
is always 255; pixels are laid out row-major top-to-bottom
(`pixelIndex = y * width + x`).  But the channel order the active shader
packs is B,G,R,A — blue, not red, in the lowest-addressed byte (see the
counterexample): byte 0 is the blue channel, byte 1 green, byte 2 red,
byte 3 alpha = 255. -/
theorem C1_output_pixel_format :
    (∀ (b : List ℕ) (p : Params) (x y : ℕ), x < p.width → y < p.height →
      (synthImage b p).getD (y * p.width + x) 0 = shaderPixel b p x y) ∧
    (∀ (b : List ℕ) (p : Params) (x y : ℕ),
      shaderPixel b p x y =
        255 * 2 ^ 24 +
        toByte ((backgroundColor x y).1.x + (accumulatedLight b p x y).x) * 2 ^ 16 +
        toByte ((backgroundColor x y).1.y + (accumulatedLight b p x y).y) * 2 ^ 8 +
        toByte ((backgroundColor x y).1.z + (accumulatedLight b p x y).z) ∧
      shaderPixel b p x y % 256 =
        toByte ((backgroundColor x y).1.z + (accumulatedLight b p x y).z) ∧
      shaderPixel b p x y / 2 ^ 8 % 256 =
        toByte ((backgroundColor x y).1.y + (accumulatedLight b p x y).y) ∧
      shaderPixel b p x y / 2 ^ 16 % 256 =
        toByte ((backgroundColor x y).1.x + (accumulatedLight b p x y).x) ∧
      shaderPixel b p x y / 2 ^ 24 % 256 = 255) := by
  constructor
  · intro b p x y hx hy
    unfold synthImage
    have hw : 0 < p.width := by omega
    have hidx : y * p.width + x < p.width * p.height := linear_index_lt hx hy
    have h1 : (y * p.width + x) % p.width = x := by
      rw [Nat.add_mod, Nat.mul_mod_left]
      simp [Nat.mod_eq_of_lt hx]
    have h2 : (y * p.width + x) / p.width = y := by
      rw [show y * p.width + x = x + p.width * y by ring,
        Nat.add_mul_div_left x y hw, Nat.div_eq_of_lt hx]
      omega
    rw [List.getD_eq_getElem?_getD, List.getElem?_map, List.getElem?_range hidx]
    simp only [Option.map_some', Option.getD_some, h1, h2]
  · intro b p x y
    have heq : shaderPixel b p x y =
        255 * 2 ^ 24 +
        toByte ((backgroundColor x y).1.x + (accumulatedLight b p x y).x) * 2 ^ 16 +
        toByte ((backgroundColor x y).1.y + (accumulatedLight b p x y).y) * 2 ^ 8 +
        toByte ((backgroundColor x y).1.z + (accumulatedLight b p x y).z) := by
      unfold shaderPixel
      rw [packColor_eq, toByte_clamp, toByte_clamp, toByte_clamp, toByte_clamp,
        toByte_one]
    have hR := toByte_le ((backgroundColor x y).1.x + (accumulatedLight b p x y).x)
    have hG := toByte_le ((backgroundColor x y).1.y + (accumulatedLight b p x y).y)
    have hB := toByte_le ((backgroundColor x y).1.z + (accumulatedLight b p x y).z)
    refine ⟨heq, ?_, ?_, ?_, ?_⟩ <;> rw [heq] <;> omega

/-- Counterexample for C1's channel-order clause: packing pure red
`(r,g,b,a) = (1,0,0,1)` puts 0 in the lowest-addressed byte and the red
byte 255 at bits 16–23, so red is not the lowest-addressed byte. -/
theorem C1_red_not_lowest_byte :
    packColor 1 0 0 1 % 256 = 0 ∧
    packColor 1 0 0 1 / 2 ^ 16 % 256 = 255 ∧
    toByte 1 = 255 ∧ (0 : ℕ) ≠ 255 := by
  have h : packColor 1 0 0 1 = 255 * 2 ^ 24 + 255 * 2 ^ 16 := by
    rw [packColor_eq, toByte_one, toByte_zero]
    ring
  refine ⟨by rw [h]; norm_num, by rw [h]; norm_num, toByte_one, by norm_num⟩

/-- Witness for C1 on a concrete board and pixel: the empty 1×1-cell
board at pixel `(0, 0)`. -/
theorem C1_output_pixel_format_witness :
    (synthImage [] ⟨32, 32, 0, 1⟩).getD (0 * 32 + 0) 0 =
      shaderPixel [] ⟨32, 32, 0, 1⟩ 0 0 ∧
    shaderPixel [] ⟨32, 32, 0, 1⟩ 0 0 / 2 ^ 24 % 256 = 255 :=
  ⟨C1_output_pixel_format.1 [] ⟨32, 32, 0, 1⟩ 0 0 (by norm_num) (by norm_num),
   (C1_output_pixel_format.2 [] ⟨32, 32, 0, 1⟩ 0 0).2.2.2.2⟩

/-- C2: the pixel synthesizer is deterministic — it is a pure function
of the Board State snapshot and the Render Parameters (the shader's only
"randomness", `rand`, is a hash of the pixel coordinate, and `time` is
itself a parameter), so two runs on equal snapshots and equal parameters
produce byte-for-byte identical Output Images. -/
theorem C2_synth_deterministic (b1 b2 : List ℕ) (p1 p2 : Params)
    (hb : b1 = b2) (hp : p1 = p2) :
    synthImage b1 p1 = synthImage b2 p2 ∧
    ∀ i, (synthImage b1 p1).getD i 0 = (synthImage b2 p2).getD i 0 := by
  subst hb
  subst hp
  exact ⟨rfl, fun i => rfl⟩

/-- Witness for C2 on a concrete snapshot and parameter set. -/
theorem C2_synth_deterministic_witness :
    synthImage [1, 0, 2, 0] ⟨64, 64, 1, 1⟩ = synthImage [1, 0, 2, 0] ⟨64, 64, 1, 1⟩ :=
  (C2_synth_deterministic [1, 0, 2, 0] [1, 0, 2, 0] ⟨64, 64, 1, 1⟩ ⟨64, 64, 1, 1⟩
    rfl rfl).1

/-- C9 (corrected): the compute shader's pulsing multiplier is
`glowIntensity * (0.95 + 0.05 * sin(2*time + 0.1*pegIndex))` as the
claim states, but the sequential Canvas-2D fallback uses a different
formula, `glowIntensity * (0.9 + 0.1 * sin(2*time + 0.1*pegIndex)) *
pegBrightness` (see the counterexample). -/
theorem C9_pulse_formulas (p : Params) (pegIndex : ℕ)
    (g pb t : ℝ) (hg : p.glowIntensity = g) (ht : p.time = t) :
    currentGlowIntensity p pegIndex =
      g * (0.95 + 0.05 * Real.sin (2 * t + 0.1 * (pegIndex : ℝ))) ∧
    canvasPegIntensity g pb t pegIndex =
      g * (0.9 + 0.1 * Real.sin (2 * t + 0.1 * (pegIndex : ℝ))) * pb := by
  constructor
  · unfold currentGlowIntensity pulseAmount
    rw [hg, ht, show t * 2 + (pegIndex : ℝ) * 0.1 = 2 * t + 0.1 * (pegIndex : ℝ) by ring]
    ring
  · unfold canvasPegIntensity canvasPulseAmount
    rw [show t * 2 + (pegIndex : ℝ) * 0.1 = 2 * t + 0.1 * (pegIndex : ℝ) by ring]
    ring

/-- Witness for C9 at `time = 0`, `pegIndex = 0`, unit intensities. -/
theorem C9_pulse_formulas_witness :
    currentGlowIntensity ⟨0, 0, 0, 1⟩ 0 =
      1 * (0.95 + 0.05 * Real.sin (2 * 0 + 0.1 * ((0 : ℕ) : ℝ))) ∧
    canvasPegIntensity 1 1 0 0 =
      1 * (0.9 + 0.1 * Real.sin (2 * 0 + 0.1 * ((0 : ℕ) : ℝ))) * 1 :=
  C9_pulse_formulas ⟨0, 0, 0, 1⟩ 0 1 1 0 rfl rfl

lemma linear_index_inj {w a b c d : ℕ} (hb : b < w) (hd : d < w)
    (h : a * w + b = c * w + d) : a = c ∧ b = d := by
  have hw : 0 < w := by omega
  have e1 : (a * w + b) / w = a := by
    rw [show a * w + b = b + w * a by ring, Nat.add_mul_div_left b a hw,
      Nat.div_eq_of_lt hb]
    omega
  have e2 : (c * w + d) / w = c := by
    rw [show c * w + d = d + w * c by ring, Nat.add_mul_div_left d c hw,
      Nat.div_eq_of_lt hd]
    omega
  have e3 : (a * w + b) % w = b := by
    rw [show a * w + b = b + w * a by ring, Nat.add_mul_mod_self_left,
      Nat.mod_eq_of_lt hb]
  have e4 : (c * w + d) % w = d := by
    rw [show c * w + d = d + w * c by ring, Nat.add_mul_mod_self_left,
      Nat.mod_eq_of_lt hd]
  constructor
  · rw [← e1, ← e2, h]
  · rw [← e3, ← e4, h]

/-- A cell whose physical center is farther than `ambientRadius` from
the pixel contributes no light, whatever its color index: the solid
branch needs distance at most `pegRadius`, the glow branch at most
`glowRadius` and the ambient branch at most `ambientRadius`. -/
lemma pegLight_far (p : Params) (x y : ℕ) (i j : ℤ) (npx npy : ℕ) (k : ℕ)
    (hd : Real.sqrt (((x : ℝ) - (((npx * pegSpacing : ℕ) : ℝ) + 16 +
      (if npy % 2 ≠ 0 then (16 : ℝ) else 0))) ^ 2 +
      ((y : ℝ) - (((npy * pegSpacing : ℕ) : ℝ) + 16)) ^ 2) > 45) :
    pegLight p x y i j npx npy k = ⟨0, 0, 0⟩ := by
  by_cases hpar : npy % 2 ≠ 0
  · rw [if_pos hpar] at hd
    simp only [pegLight, pegRadius, glowRadius, ambientRadius, if_pos hpar]
    split_ifs with h1 h2 h3 h4 h5
    · exact absurd h2.2.2 (not_le.mpr (by linarith))
    · exact absurd h3.1 (not_le.mpr (by linarith))
    · exact absurd h3.1 (not_le.mpr (by linarith))
    · exact absurd h5 (not_le.mpr (by linarith))
    · simp [v3add]
    · rfl
  · rw [if_neg hpar] at hd
    simp only [pegLight, pegRadius, glowRadius, ambientRadius, if_neg hpar]
    split_ifs with h1 h2 h3 h4 h5
    · exact absurd h2.2.2 (not_le.mpr (by linarith))
    · exact absurd h3.1 (not_le.mpr (by linarith))
    · exact absurd h3.1 (not_le.mpr (by linarith))
    · exact absurd h5 (not_le.mpr (by linarith))
    · simp [v3add]
    · rfl

/-- C5 (pixel synthesizer locality): if two board states agree on every
cell except one in-board cell `(cc, cr)` whose physical center lies
farther than `ambientRadius + pegSpacing` from the output pixel
`(x, y)`, the synthesizer produces the same color for that pixel under
both boards, for all render parameters. -/
theorem C5_locality (b1 b2 : List ℕ) (p : Params) (x y cc cr : ℕ)
    (hcc : cc < boardWidthOf p) (hcr : cr < boardHeightOf p)
    (hdiff : ∀ k, k ≠ cr * boardWidthOf p + cc → b1.getD k 0 = b2.getD k 0)
    (hfar : Real.sqrt (((x : ℝ) - (((cc * pegSpacing : ℕ) : ℝ) + 16 +
        (if cr % 2 ≠ 0 then (16 : ℝ) else 0))) ^ 2 +
        ((y : ℝ) - (((cr * pegSpacing : ℕ) : ℝ) + 16)) ^ 2) >
      ambientRadius + ((pegSpacing : ℕ) : ℝ)) :
    shaderPixel b1 p x y = shaderPixel b2 p x y := by
  have h77 : ambientRadius + ((pegSpacing : ℕ) : ℝ) = 77 := by
    unfold ambientRadius pegSpacing
    norm_num
  have hcontrib : ∀ ij : ℤ × ℤ,
      neighborContrib b1 p x y ij = neighborContrib b2 p x y ij := by
    intro ij
    simp only [neighborContrib]
    split_ifs with hbounds
    · have hA : (⌊((x : ℝ) - currentShift y) / ((pegSpacing : ℕ) : ℝ)⌋ + ij.1).toNat <
          boardWidthOf p := by omega
      have hB : (((y / pegSpacing : ℕ) : ℤ) + ij.2).toNat < boardHeightOf p := by omega
      by_cases hix :
          (((y / pegSpacing : ℕ) : ℤ) + ij.2).toNat * boardWidthOf p +
            (⌊((x : ℝ) - currentShift y) / ((pegSpacing : ℕ) : ℝ)⌋ + ij.1).toNat =
          cr * boardWidthOf p + cc
      · obtain ⟨hBe, hAe⟩ := linear_index_inj hA hcc hix
        rw [hAe, hBe, pegLight_far p x y ij.1 ij.2 cc cr _ (by rw [h77] at hfar; linarith),
          pegLight_far p x y ij.1 ij.2 cc cr _ (by rw [h77] at hfar; linarith)]
      · rw [hdiff _ hix]
    · rfl
  have hacc : accumulatedLight b1 p x y = accumulatedLight b2 p x y := by
    unfold accumulatedLight
    congr 1
    funext acc ij
    rw [hcontrib ij]
  simp only [shaderPixel]
  rw [hacc]

/-- Witness for C5: a 32×24-cell board (1024×768 pixels); the boards
differ only in cell `(4, 3)` (linear index 100), whose center `(160, 112)`
is far from pixel `(1000, 700)`. -/
theorem C5_locality_witness :
    shaderPixel (List.replicate 768 0) ⟨1024, 768, 0, 1⟩ 1000 700 =
      shaderPixel ((List.replicate 768 0).set 100 5) ⟨1024, 768, 0, 1⟩ 1000 700 := by
  have hdiff : ∀ k, k ≠ 3 * boardWidthOf ⟨1024, 768, 0, 1⟩ + 4 →
      (List.replicate 768 0).getD k 0 =
        ((List.replicate 768 0).set 100 5).getD k 0 := by
    intro k hk
    have hk' : k ≠ 100 := by
      simpa [boardWidthOf, pegSpacing] using hk
    rw [List.getD_eq_getElem?_getD, List.getD_eq_getElem?_getD,
      List.getElem?_set_ne (Ne.symm hk')]
  refine C5_locality _ _ _ 1000 700 4 3 (by norm_num [boardWidthOf, pegSpacing])
    (by norm_num [boardHeightOf, pegSpacing]) hdiff ?_
  have harg : ((1000 : ℕ) : ℝ) - (((4 * pegSpacing : ℕ) : ℝ) + 16 +
      (if (3 : ℕ) % 2 ≠ 0 then (16 : ℝ) else 0)) = 840 := by
    norm_num [pegSpacing]
  have harg2 : ((700 : ℕ) : ℝ) - (((3 * pegSpacing : ℕ) : ℝ) + 16) = 588 := by
    norm_num [pegSpacing]
  rw [harg, harg2]
  have h77 : ambientRadius + ((pegSpacing : ℕ) : ℝ) = 77 := by
    unfold ambientRadius pegSpacing
    norm_num
  rw [h77]
  have hlt : (77 : ℝ) < Real.sqrt (840 ^ 2 + 588 ^ 2) := by
    rw [show ((840 : ℝ) ^ 2 + 588 ^ 2) = 1051344 by norm_num,
      Real.lt_sqrt (by norm_num : (0 : ℝ) ≤ 77)]
    norm_num
  linarith

/-- Counterexample for C9 as stated: at `time = 0`, `pegIndex = 0`,
`glowIntensity = pegBrightness = 1`, the sequential fallback's intensity
is `0.9`, not the claimed `glowIntensity * (0.95 + 0.05 * sin 0) = 0.95`. -/
theorem C9_canvas_pulse_counterexample :
    canvasPegIntensity 1 1 0 0 = 0.9 ∧
    (1 : ℝ) * (0.95 + 0.05 * Real.sin (2 * 0 + 0.1 * ((0 : ℕ) : ℝ))) = 0.95 ∧
    (0.9 : ℝ) ≠ 0.95 := by
  refine ⟨?_, ?_, by norm_num⟩
  · unfold canvasPegIntensity canvasPulseAmount
    norm_num
  · norm_num

end LiteBrite
